import Mathlib

/-!
Verification of the landmark preprocessing pipeline
(`preprocessing_module.py`): the keypoint flattener, the
shoulder-based normalizer and the hand line-distance calculator.

Coordinates are modelled as real numbers.  Two floating-point failure
modes of the source are made explicit in the embedding:

* a Python scalar division by zero (`base_shoulder_scale / shoulder_dist`
  in `Normalizer._get_scale`) raises `ZeroDivisionError`; it is modelled
  by an `Option` result, `none` standing for the raised exception;
* a numpy array division by a zero scalar (`/np.ptp(...)` in
  `Normalizer._clean_data`) does not raise: it silently produces
  non-real entries (NaN from 0/0, ±inf otherwise); each output entry is
  therefore an `Option ℝ`, `none` standing for such a non-real value.
-/

/-- A 2-D landmark point `(x, y)`. -/
abbrev Point := ℝ × ℝ

/-- Euclidean norm of the vector `(x, y)`; models `math.hypot`. -/
noncomputable def hypot (x y : ℝ) : ℝ := Real.sqrt (x ^ 2 + y ^ 2)

/-- Reshape a flat scalar list into consecutive `(x, y)` pairs; models
`data.reshape(45, 2)` (and `(42, 2)`) on the lists the source feeds it. -/
def pairUp : List ℝ → List Point
  | x :: y :: rest => (x, y) :: pairUp rest
  | _ => []

/-- Flatten a point list into the scalar list `x0, y0, x1, y1, ...`;
models `np.concatenate([np.array(part).flatten() for part in data])`
applied to a list of `[x, y]` pairs. -/
def flatPoints : List Point → List ℝ
  | [] => []
  | p :: rest => p.1 :: p.2 :: flatPoints rest

/-- The selected landmark groups of one frame: shoulders/head (3 points),
left hand (21 points), right hand (21 points). -/
structure KeypointSet where
  shoulders : List Point
  lhand : List Point
  rhand : List Point

/-- `PreprocessingPipeline._flatten`: concatenation of the flattened
groups, giving the 90-scalar flat vector. -/
def flatten_keys (ks : KeypointSet) : List ℝ :=
  flatPoints ks.shoulders ++ flatPoints ks.lhand ++ flatPoints ks.rhand

/-- Sequential minimum of a scalar list; models `np.min` (the source
only applies it to non-empty arrays; `0` is an arbitrary value for `[]`). -/
noncomputable def listMin : List ℝ → ℝ
  | [] => 0
  | x :: xs => xs.foldl min x

/-- Sequential maximum of a scalar list; models `np.max`. -/
noncomputable def listMax : List ℝ → ℝ
  | [] => 0
  | x :: xs => xs.foldl max x

/-- Peak-to-peak range; models `np.ptp`. -/
noncomputable def ptp (l : List ℝ) : ℝ := listMax l - listMin l

/-- IEEE division of a real value by a real scalar, as numpy performs it
elementwise: a zero divisor yields NaN (from `0/0`) or ±inf, i.e. a
non-real value, modelled as `none`. -/
noncomputable def fdiv (a b : ℝ) : Option ℝ :=
  if b = 0 then none else some (a / b)

/-- `Normalizer._get_centroid`: arithmetic mean of the three
shoulder/head points. -/
noncomputable def get_centroid (sp : List Point) : Point :=
  (((sp.getD 0 (0, 0)).1 + (sp.getD 1 (0, 0)).1 + (sp.getD 2 (0, 0)).1) / 3,
   ((sp.getD 0 (0, 0)).2 + (sp.getD 1 (0, 0)).2 + (sp.getD 2 (0, 0)).2) / 3)

/-- `Normalizer._get_adjustment_distances`: the translation taking the
shoulder centroid to the frame centre `(0.5, 0.5)`. -/
noncomputable def get_adjustment_distances (sp : List Point) : ℝ × ℝ :=
  (0.5 - (get_centroid sp).1, 0.5 - (get_centroid sp).2)

/-- `Normalizer._adjust_positions`: shift every point by the adjustment
vector. -/
def adjust_positions (data : List Point) (adj : ℝ × ℝ) : List Point :=
  data.map (fun p => (p.1 + adj.1, p.2 + adj.2))

/-- The Euclidean distance between shoulder points 0 and 1, the local
`shoulder_dist` of `Normalizer._get_scale`. -/
noncomputable def shoulder_dist (sp : List Point) : ℝ :=
  hypot ((sp.getD 1 (0, 0)).1 - (sp.getD 0 (0, 0)).1)
        ((sp.getD 1 (0, 0)).2 - (sp.getD 0 (0, 0)).2)

/-- `Normalizer._get_scale`: `base_shoulder_scale / shoulder_dist`.
Python float division raises `ZeroDivisionError` on a zero divisor,
modelled as `none`. -/
noncomputable def get_scale (base : ℝ) (sp : List Point) : Option ℝ :=
  if shoulder_dist sp = 0 then none else some (base / shoulder_dist sp)

/-- `Normalizer._normalize_scale`: flatten the adjusted points and
multiply every scalar by the scale factor (propagating the
`ZeroDivisionError` of `_get_scale`). -/
noncomputable def normalize_scale (base : ℝ) (data : List Point)
    (sp : List Point) : Option (List ℝ) :=
  match get_scale base sp with
  | none => none
  | some scale => some ((flatPoints data).map (fun point => point * scale))

/-- `Normalizer._separate_xy`: drop the 6 shoulder scalars, regroup the
remaining scalars into points, and list all x-values then all y-values. -/
def separate_xy (data : List ℝ) : List ℝ :=
  let pts := pairUp (data.drop 6)
  pts.map Prod.fst ++ pts.map Prod.snd

/-- `Normalizer._clean_data`: global min-max normalization of the
separated values; with numpy semantics each entry is
`(v - min) / ptp`, a non-real (`none`) when `ptp = 0`. -/
noncomputable def clean_data (data : List ℝ) : List (Option ℝ) :=
  let s := separate_xy data
  s.map (fun v => fdiv (v - listMin s) (ptp s))

/-- `Normalizer.normalize_based_on_shoulders`: the full normalization of
a flat 90-scalar vector, `none` when `_get_scale` raised. -/
noncomputable def normalize_based_on_shoulders (base : ℝ) (data : List ℝ) :
    Option (List (Option ℝ)) :=
  let pts := pairUp data
  let sp := pts.take 3
  let adj_data := adjust_positions pts (get_adjustment_distances sp)
  match normalize_scale base adj_data sp with
  | none => none
  | some scaled => some (clean_data scaled)

/-- The scaled 90-scalar vector a successful run of the normalizer feeds
into `_clean_data` (`[]` when `_get_scale` raised); used to state the
non-degenerate-range hypothesis of the spec. -/
noncomputable def scaled_values (base : ℝ) (data : List ℝ) : List ℝ :=
  let pts := pairUp data
  let sp := pts.take 3
  (normalize_scale base (adjust_positions pts (get_adjustment_distances sp)) sp).getD []

/-- `Calculator.line_pairs`: the fixed ordered hand-skeleton edge list. -/
def line_pairs : List (ℕ × ℕ) :=
  [(4, 3), (3, 2), (2, 1), (1, 0), (8, 7),
   (7, 6), (6, 5), (5, 0), (12, 11), (11, 10),
   (10, 9), (16, 15), (15, 14), (14, 13), (20, 19),
   (19, 18), (18, 17), (17, 0), (5, 9), (9, 13), (13, 17)]

/-- `Calculator.calculate_hand_lines`: the Euclidean length of each
skeleton edge, in the fixed pair order. -/
noncomputable def calculate_hand_lines (hand : List Point) : List ℝ :=
  line_pairs.map (fun pair =>
    hypot ((hand.getD pair.2 (0, 0)).1 - (hand.getD pair.1 (0, 0)).1)
          ((hand.getD pair.2 (0, 0)).2 - (hand.getD pair.1 (0, 0)).2))

/-- Apply a point transformation to every `(x, y)` pair of a flat
vector (spec-side helper used to state the invariance claims). -/
def transformPoints (f : Point → Point) (data : List ℝ) : List ℝ :=
  flatPoints ((pairUp data).map f)

/-- Uniform scaling by factor `s` about a fixed origin `o`. -/
def scalePoint (s : ℝ) (o : Point) (p : Point) : Point :=
  (o.1 + s * (p.1 - o.1), o.2 + s * (p.2 - o.2))

/-- Translation by a constant offset `(dx, dy)`. -/
def shiftPoint (dx dy : ℝ) (p : Point) : Point :=
  (p.1 + dx, p.2 + dy)

/-! ### Basic lemmas about the embedding's list plumbing -/

theorem pairUp_flatPoints : ∀ l : List Point, pairUp (flatPoints l) = l
  | [] => rfl
  | p :: rest => by simp [flatPoints, pairUp, pairUp_flatPoints rest]

theorem flatPoints_length : ∀ l : List Point, (flatPoints l).length = 2 * l.length
  | [] => rfl
  | _ :: rest => by simp [flatPoints, flatPoints_length rest]; ring

theorem pairUp_length : ∀ l : List ℝ, (pairUp l).length = l.length / 2
  | [] => rfl
  | [_] => by simp [pairUp]
  | _ :: _ :: rest => by simp [pairUp, pairUp_length rest]; omega

theorem flatPoints_append : ∀ l m : List Point,
    flatPoints (l ++ m) = flatPoints l ++ flatPoints m
  | [], _ => rfl
  | _ :: rest, m => by simp [flatPoints, flatPoints_append rest m]

theorem flatPoints_map_coord (g : ℝ → ℝ) :
    ∀ l : List Point,
      flatPoints (l.map (fun p => (g p.1, g p.2))) = (flatPoints l).map g
  | [] => rfl
  | _ :: rest => by simp [flatPoints, flatPoints_map_coord g rest]

theorem pairUp_map (g : ℝ → ℝ) :
    ∀ l : List ℝ, pairUp (l.map g) = (pairUp l).map (fun p => (g p.1, g p.2))
  | [] => rfl
  | [_] => rfl
  | _ :: _ :: rest => by simp [pairUp, pairUp_map g rest]

theorem drop_map_six (g : ℝ → ℝ) (l : List ℝ) :
    (l.map g).drop 6 = (l.drop 6).map g := by
  simp [List.map_drop]

theorem foldl_min_add (c : ℝ) :
    ∀ (xs : List ℝ) (x : ℝ),
      (xs.map (fun v => v + c)).foldl min (x + c) = xs.foldl min x + c
  | [], _ => rfl
  | y :: ys, x => by
      simp only [List.map_cons, List.foldl_cons, min_add_add_right]
      exact foldl_min_add c ys (min x y)

theorem foldl_max_add (c : ℝ) :
    ∀ (xs : List ℝ) (x : ℝ),
      (xs.map (fun v => v + c)).foldl max (x + c) = xs.foldl max x + c
  | [], _ => rfl
  | y :: ys, x => by
      simp only [List.map_cons, List.foldl_cons, max_add_add_right]
      exact foldl_max_add c ys (max x y)

theorem listMin_map_add (c : ℝ) (l : List ℝ) :
    listMin (l.map (fun v => v + c)) = listMin l + c ∨ l = [] := by
  cases l with
  | nil => exact Or.inr rfl
  | cons x xs => exact Or.inl (foldl_min_add c xs x)

theorem listMax_map_add (c : ℝ) (l : List ℝ) :
    listMax (l.map (fun v => v + c)) = listMax l + c ∨ l = [] := by
  cases l with
  | nil => exact Or.inr rfl
  | cons x xs => exact Or.inl (foldl_max_add c xs x)

theorem foldl_min_le_init : ∀ (xs : List ℝ) (x : ℝ), xs.foldl min x ≤ x
  | [], x => le_refl x
  | y :: ys, x =>
      le_trans (foldl_min_le_init ys (min x y)) (min_le_left x y)

theorem foldl_min_le_mem :
    ∀ (xs : List ℝ) (x v : ℝ), v ∈ xs → xs.foldl min x ≤ v
  | y :: ys, x, v, hv => by
      rcases List.mem_cons.mp hv with h | h
      · subst h
        exact le_trans (foldl_min_le_init ys (min x v)) (min_le_right x v)
      · exact foldl_min_le_mem ys (min x y) v h

theorem init_le_foldl_max : ∀ (xs : List ℝ) (x : ℝ), x ≤ xs.foldl max x
  | [], x => le_refl x
  | y :: ys, x =>
      le_trans (le_max_left x y) (init_le_foldl_max ys (max x y))

theorem mem_le_foldl_max :
    ∀ (xs : List ℝ) (x v : ℝ), v ∈ xs → v ≤ xs.foldl max x
  | y :: ys, x, v, hv => by
      rcases List.mem_cons.mp hv with h | h
      · subst h
        exact le_trans (le_max_right x v) (init_le_foldl_max ys (max x v))
      · exact mem_le_foldl_max ys (max x y) v h

theorem foldl_min_mem : ∀ (xs : List ℝ) (x : ℝ),
    xs.foldl min x = x ∨ xs.foldl min x ∈ xs
  | [], _ => Or.inl rfl
  | y :: ys, x => by
      rcases foldl_min_mem ys (min x y) with h | h
      · rcases min_choice x y with hxy | hxy
        · exact Or.inl (by rw [List.foldl_cons, h, hxy])
        · exact Or.inr (by rw [List.foldl_cons, h, hxy]; exact List.mem_cons_self y ys)
      · exact Or.inr (List.mem_cons_of_mem y h)

theorem foldl_max_mem : ∀ (xs : List ℝ) (x : ℝ),
    xs.foldl max x = x ∨ xs.foldl max x ∈ xs
  | [], _ => Or.inl rfl
  | y :: ys, x => by
      rcases foldl_max_mem ys (max x y) with h | h
      · rcases max_choice x y with hxy | hxy
        · exact Or.inl (by rw [List.foldl_cons, h, hxy])
        · exact Or.inr (by rw [List.foldl_cons, h, hxy]; exact List.mem_cons_self y ys)
      · exact Or.inr (List.mem_cons_of_mem y h)

theorem listMin_le_mem (l : List ℝ) (v : ℝ) (hv : v ∈ l) : listMin l ≤ v := by
  cases l with
  | nil => cases hv
  | cons x xs =>
      rcases List.mem_cons.mp hv with h | h
      · subst h; exact foldl_min_le_init xs v
      · exact foldl_min_le_mem xs x v h

theorem mem_le_listMax (l : List ℝ) (v : ℝ) (hv : v ∈ l) : v ≤ listMax l := by
  cases l with
  | nil => cases hv
  | cons x xs =>
      rcases List.mem_cons.mp hv with h | h
      · subst h; exact init_le_foldl_max xs v
      · exact mem_le_foldl_max xs x v h

theorem listMin_mem (l : List ℝ) (hl : l ≠ []) : listMin l ∈ l := by
  cases l with
  | nil => exact absurd rfl hl
  | cons x xs =>
      rcases foldl_min_mem xs x with h | h
      · rw [listMin, h]; exact List.mem_cons_self x xs
      · exact List.mem_cons_of_mem x h

theorem listMax_mem (l : List ℝ) (hl : l ≠ []) : listMax l ∈ l := by
  cases l with
  | nil => exact absurd rfl hl
  | cons x xs =>
      rcases foldl_max_mem xs x with h | h
      · rw [listMax, h]; exact List.mem_cons_self x xs
      · exact List.mem_cons_of_mem x h

/-! ### Lemmas about `hypot` -/

theorem hypot_nonneg (x y : ℝ) : 0 ≤ hypot x y := Real.sqrt_nonneg _

theorem hypot_zero : hypot 0 0 = 0 := by simp [hypot]

theorem hypot_smul (s x y : ℝ) (hs : 0 ≤ s) :
    hypot (s * x) (s * y) = s * hypot x y := by
  unfold hypot
  rw [show (s * x) ^ 2 + (s * y) ^ 2 = s ^ 2 * (x ^ 2 + y ^ 2) by ring,
    Real.sqrt_mul (sq_nonneg s), Real.sqrt_sq hs]

/-! ### The normalizer viewed on the reshaped point list -/

/-- The body of `normalize_based_on_shoulders` after the initial
`reshape(45, 2)`; proof-side restatement of the same source code. -/
noncomputable def normalizePts (base : ℝ) (pts : List Point) :
    Option (List (Option ℝ)) :=
  let sp := pts.take 3
  match normalize_scale base (adjust_positions pts (get_adjustment_distances sp)) sp with
  | none => none
  | some scaled => some (clean_data scaled)

theorem normalize_eq_pts (base : ℝ) (data : List ℝ) :
    normalize_based_on_shoulders base data = normalizePts base (pairUp data) := rfl

/-- The scaled vector, viewed on the reshaped point list. -/
noncomputable def scaledPts (base : ℝ) (pts : List Point) : List ℝ :=
  let sp := pts.take 3
  (normalize_scale base (adjust_positions pts (get_adjustment_distances sp)) sp).getD []

theorem scaled_values_eq_pts (base : ℝ) (data : List ℝ) :
    scaled_values base data = scaledPts base (pairUp data) := rfl

/-- C1: a `KeypointSet` whose shoulder group is the zero-filled sentinel
makes the two scale-reference points coincide, so `Normalizer._get_scale`
divides `base_shoulder_scale` by a zero distance; Python float division
raises a `ZeroDivisionError` there (modelled by the `none` result), so the
normalizer reports this distinct failure and produces no output vector at
all — in particular no infinite or NaN scale is propagated into stored
data. -/
theorem C1_degenerate_scale_reference (base : ℝ) (ks : KeypointSet)
    (hsh : ks.shoulders = List.replicate 3 ((0 : ℝ), (0 : ℝ)))
    (hl : ks.lhand.length = 21) (hr : ks.rhand.length = 21) :
    get_scale base ((pairUp (flatten_keys ks)).take 3) = none ∧
    normalize_based_on_shoulders base (flatten_keys ks) = none := by
  have hflat : flatten_keys ks = flatPoints (ks.shoulders ++ (ks.lhand ++ ks.rhand)) := by
    simp [flatten_keys, flatPoints_append]
  have hpair : pairUp (flatten_keys ks) = ks.shoulders ++ (ks.lhand ++ ks.rhand) := by
    rw [hflat, pairUp_flatPoints]
  have htake : (pairUp (flatten_keys ks)).take 3 =
      List.replicate 3 ((0 : ℝ), (0 : ℝ)) := by
    rw [hpair, hsh]
    simp
  have hdist : shoulder_dist (List.replicate 3 ((0 : ℝ), (0 : ℝ))) = 0 := by
    simp [shoulder_dist, hypot]
  have hscale : get_scale base ((pairUp (flatten_keys ks)).take 3) = none := by
    rw [htake, get_scale, if_pos hdist]
  refine ⟨hscale, ?_⟩
  rw [normalize_eq_pts]
  simp only [normalizePts, normalize_scale, hscale]

theorem C1_degenerate_scale_reference_witness :
    get_scale 0.25 ((pairUp (flatten_keys
      ⟨List.replicate 3 ((0 : ℝ), (0 : ℝ)),
       List.replicate 21 ((0.5 : ℝ), (0.5 : ℝ)),
       List.replicate 21 ((0.5 : ℝ), (0.5 : ℝ))⟩)).take 3) = none ∧
    normalize_based_on_shoulders 0.25 (flatten_keys
      ⟨List.replicate 3 ((0 : ℝ), (0 : ℝ)),
       List.replicate 21 ((0.5 : ℝ), (0.5 : ℝ)),
       List.replicate 21 ((0.5 : ℝ), (0.5 : ℝ))⟩) = none :=
  C1_degenerate_scale_reference 0.25 _ rfl (by simp) (by simp)

/-! ### Shift invariance of the min-max cleaning step -/

theorem separate_xy_map (g : ℝ → ℝ) (l : List ℝ) :
    separate_xy (l.map g) = (separate_xy l).map g := by
  simp only [separate_xy]
  rw [← List.map_drop, pairUp_map]
  simp only [List.map_append, List.map_map]
  rfl

theorem clean_data_shift (c : ℝ) (l : List ℝ) :
    clean_data (l.map (fun v => v + c)) = clean_data l := by
  unfold clean_data
  rw [separate_xy_map]
  cases hs : separate_xy l with
  | nil => simp
  | cons x xs =>
      have hmin : listMin ((x :: xs).map (fun v => v + c)) = listMin (x :: xs) + c := by
        simpa [listMin] using foldl_min_add c xs x
      have hmax : listMax ((x :: xs).map (fun v => v + c)) = listMax (x :: xs) + c := by
        simpa [listMax] using foldl_max_add c xs x
      have hptp : ptp ((x :: xs).map (fun v => v + c)) = ptp (x :: xs) := by
        rw [ptp, ptp, hmin, hmax]; ring
      rw [List.map_map, hptp]
      apply List.map_congr_left
      intro v _
      simp only [Function.comp_apply, hmin]
      congr 1
      ring

theorem normalizePts_cons (base : ℝ) (a b c : Point) (rest : List Point) :
    normalizePts base (a :: b :: c :: rest) =
      match normalize_scale base
        (adjust_positions (a :: b :: c :: rest) (get_adjustment_distances [a, b, c]))
        [a, b, c] with
      | none => none
      | some scaled => some (clean_data scaled) := rfl

theorem scaledPts_cons (base : ℝ) (a b c : Point) (rest : List Point) :
    scaledPts base (a :: b :: c :: rest) =
      (normalize_scale base
        (adjust_positions (a :: b :: c :: rest) (get_adjustment_distances [a, b, c]))
        [a, b, c]).getD [] := rfl

theorem normalize_scale_some (base : ℝ) (data sp : List Point)
    (hd : shoulder_dist sp ≠ 0) :
    normalize_scale base data sp =
      some ((flatPoints data).map (fun v => v * (base / shoulder_dist sp))) := by
  simp only [normalize_scale, get_scale, if_neg hd]

theorem scaledPts_eval (base : ℝ) (a b c : Point) (rest : List Point)
    (hd : shoulder_dist [a, b, c] ≠ 0) :
    scaledPts base (a :: b :: c :: rest) =
      (flatPoints (adjust_positions (a :: b :: c :: rest)
        (get_adjustment_distances [a, b, c]))).map
        (fun v => v * (base / shoulder_dist [a, b, c])) := by
  rw [scaledPts_cons, normalize_scale_some base _ _ hd]
  rfl

theorem normalizePts_eval (base : ℝ) (a b c : Point) (rest : List Point)
    (hd : shoulder_dist [a, b, c] ≠ 0) :
    normalizePts base (a :: b :: c :: rest) =
      some (clean_data (scaledPts base (a :: b :: c :: rest))) := by
  rw [normalizePts_cons, normalize_scale_some base _ _ hd,
    scaledPts_eval base a b c rest hd]

theorem normalizePts_shift (base dx dy : ℝ) (a b c : Point) (rest : List Point) :
    normalizePts base ((a :: b :: c :: rest).map (shiftPoint dx dy)) =
      normalizePts base (a :: b :: c :: rest) := by
  have hdist : shoulder_dist
      [shiftPoint dx dy a, shiftPoint dx dy b, shiftPoint dx dy c] =
      shoulder_dist [a, b, c] := by
    simp only [shoulder_dist, shiftPoint, List.getD_cons_succ, List.getD_cons_zero]
    congr 1 <;> ring
  have hadj : adjust_positions ((a :: b :: c :: rest).map (shiftPoint dx dy))
      (get_adjustment_distances
        [shiftPoint dx dy a, shiftPoint dx dy b, shiftPoint dx dy c]) =
      adjust_positions (a :: b :: c :: rest) (get_adjustment_distances [a, b, c]) := by
    simp only [adjust_positions, get_adjustment_distances, get_centroid, shiftPoint,
      List.getD_cons_succ, List.getD_cons_zero, List.map_map]
    apply List.map_congr_left
    intro p _
    simp only [Function.comp_apply, shiftPoint, Prod.mk.injEq]
    constructor <;> ring
  have hns : normalize_scale base
      (adjust_positions ((a :: b :: c :: rest).map (shiftPoint dx dy))
        (get_adjustment_distances
          [shiftPoint dx dy a, shiftPoint dx dy b, shiftPoint dx dy c]))
      [shiftPoint dx dy a, shiftPoint dx dy b, shiftPoint dx dy c] =
      normalize_scale base
        (adjust_positions (a :: b :: c :: rest) (get_adjustment_distances [a, b, c]))
        [a, b, c] := by
    simp only [normalize_scale, get_scale, hdist, hadj]
  simp only [List.map_cons] at hns ⊢
  rw [normalizePts_cons, normalizePts_cons, hns]

/-- C3: shifting every point of a 90-scalar flat vector by one constant
offset `(dx, dy)` leaves the output of
`Normalizer.normalize_based_on_shoulders` unchanged, exactly, over real
arithmetic (the shoulder centroid shifts with the data, so the adjusted
positions — and everything after them — coincide). -/
theorem C3_translation_invariance (base dx dy : ℝ) (data : List ℝ)
    (hlen : data.length = 90)
    (hd : shoulder_dist ((pairUp data).take 3) ≠ 0)
    (hr : ptp (separate_xy (scaled_values base data)) ≠ 0) :
    normalize_based_on_shoulders base (transformPoints (shiftPoint dx dy) data) =
      normalize_based_on_shoulders base data := by
  rw [normalize_eq_pts, normalize_eq_pts, transformPoints, pairUp_flatPoints]
  have h45 : (pairUp data).length = 45 := by rw [pairUp_length, hlen]
  rcases hpts : pairUp data with _ | ⟨a, _ | ⟨b, _ | ⟨c, rest⟩⟩⟩ <;>
    rw [hpts] at h45 <;> try simp at h45
  exact normalizePts_shift base dx dy a b c rest

theorem normalizePts_scale (base s : ℝ) (o : Point) (a b c : Point) (rest : List Point)
    (hs : 0 < s) (hd : shoulder_dist [a, b, c] ≠ 0) :
    normalizePts base ((a :: b :: c :: rest).map (scalePoint s o)) =
      normalizePts base (a :: b :: c :: rest) := by
  have hdist' : shoulder_dist [scalePoint s o a, scalePoint s o b, scalePoint s o c] =
      s * shoulder_dist [a, b, c] := by
    simp only [shoulder_dist, scalePoint, List.getD_cons_succ, List.getD_cons_zero]
    rw [show o.1 + s * (b.1 - o.1) - (o.1 + s * (a.1 - o.1)) = s * (b.1 - a.1) by ring,
      show o.2 + s * (b.2 - o.2) - (o.2 + s * (a.2 - o.2)) = s * (b.2 - a.2) by ring,
      hypot_smul s _ _ hs.le]
  have hd' : shoulder_dist [scalePoint s o a, scalePoint s o b, scalePoint s o c] ≠ 0 := by
    rw [hdist']
    exact mul_ne_zero hs.ne' hd
  have hadj' : adjust_positions ((a :: b :: c :: rest).map (scalePoint s o))
      (get_adjustment_distances [scalePoint s o a, scalePoint s o b, scalePoint s o c]) =
      (adjust_positions (a :: b :: c :: rest) (get_adjustment_distances [a, b, c])).map
        (fun p => (s * p.1 + 0.5 * (1 - s), s * p.2 + 0.5 * (1 - s))) := by
    simp only [adjust_positions, get_adjustment_distances, get_centroid, scalePoint,
      List.getD_cons_succ, List.getD_cons_zero, List.map_map]
    apply List.map_congr_left
    intro p _
    simp only [Function.comp_apply, scalePoint, Prod.mk.injEq]
    constructor <;> ring
  simp only [List.map_cons] at hadj' ⊢
  rw [normalizePts_eval base _ _ _ _ hd', normalizePts_eval base _ _ _ _ hd,
    scaledPts_eval base _ _ _ _ hd', scaledPts_eval base _ _ _ _ hd, hadj', hdist',
    flatPoints_map_coord (fun v => s * v + 0.5 * (1 - s))]
  have hlist : ((flatPoints (adjust_positions (a :: b :: c :: rest)
        (get_adjustment_distances [a, b, c]))).map (fun v => s * v + 0.5 * (1 - s))).map
        (fun v => v * (base / (s * shoulder_dist [a, b, c]))) =
      ((flatPoints (adjust_positions (a :: b :: c :: rest)
        (get_adjustment_distances [a, b, c]))).map
        (fun v => v * (base / shoulder_dist [a, b, c]))).map
        (fun v => v + 0.5 * (1 - s) * (base / (s * shoulder_dist [a, b, c]))) := by
    rw [List.map_map, List.map_map]
    apply List.map_congr_left
    intro v _
    simp only [Function.comp_apply]
    field_simp
    ring
  rw [hlist, clean_data_shift]

/-- C2: scaling every point of a 90-scalar flat vector uniformly by a
factor `s > 0` about any fixed origin leaves the output of
`Normalizer.normalize_based_on_shoulders` unchanged, exactly, over real
arithmetic: the shoulder-pair distance scales by `s`, which cancels in
`_get_scale`, and the residual uniform offset is removed by the min-max
step. -/
theorem C2_scale_invariance (base s : ℝ) (o : Point) (data : List ℝ)
    (hlen : data.length = 90) (hs : 0 < s)
    (hd : shoulder_dist ((pairUp data).take 3) ≠ 0)
    (hr : ptp (separate_xy (scaled_values base data)) ≠ 0) :
    normalize_based_on_shoulders base (transformPoints (scalePoint s o) data) =
      normalize_based_on_shoulders base data := by
  rw [normalize_eq_pts, normalize_eq_pts, transformPoints, pairUp_flatPoints]
  have h45 : (pairUp data).length = 45 := by rw [pairUp_length, hlen]
  rcases hpts : pairUp data with _ | ⟨a, _ | ⟨b, _ | ⟨c, rest⟩⟩⟩ <;>
    rw [hpts] at h45 hd <;> try simp at h45
  exact normalizePts_scale base s o a b c rest hs hd

/-! ### Range of the min-max normalized output -/

theorem ptp_nonneg (l : List ℝ) (hl : l ≠ []) : 0 ≤ ptp l := by
  rw [ptp, sub_nonneg]
  exact le_trans (listMin_le_mem l _ (listMin_mem l hl)) (mem_le_listMax l _ (listMin_mem l hl))

theorem clean_data_range (d : List ℝ) (hr : ptp (separate_xy d) ≠ 0) :
    (∀ x ∈ clean_data d, ∃ v : ℝ, x = some v ∧ 0 ≤ v ∧ v ≤ 1) ∧
      some (0 : ℝ) ∈ clean_data d ∧ some (1 : ℝ) ∈ clean_data d := by
  have hne : separate_xy d ≠ [] := by
    intro h
    rw [h] at hr
    simp [ptp, listMin, listMax] at hr
  have hpos : 0 < ptp (separate_xy d) :=
    lt_of_le_of_ne (ptp_nonneg _ hne) (Ne.symm hr)
  refine ⟨?_, ?_, ?_⟩
  · intro x hx
    simp only [clean_data] at hx
    obtain ⟨v, hv, hxv⟩ := List.mem_map.1 hx
    refine ⟨(v - listMin (separate_xy d)) / ptp (separate_xy d), ?_, ?_, ?_⟩
    · rw [← hxv, fdiv, if_neg hr]
    · exact div_nonneg (sub_nonneg.2 (listMin_le_mem _ _ hv)) hpos.le
    · rw [div_le_one hpos, ptp]
      exact sub_le_sub_right (mem_le_listMax _ _ hv) _
  · simp only [clean_data]
    refine List.mem_map.2 ⟨listMin (separate_xy d), listMin_mem _ hne, ?_⟩
    rw [fdiv, if_neg hr, sub_self, zero_div]
  · simp only [clean_data]
    refine List.mem_map.2 ⟨listMax (separate_xy d), listMax_mem _ hne, ?_⟩
    rw [fdiv, if_neg hr, ← ptp, div_self hr]

/-! ### Structure of a successful normalizer run -/

theorem normalize_some_eq (base : ℝ) (data : List ℝ)
    (hd : shoulder_dist ((pairUp data).take 3) ≠ 0) :
    normalize_based_on_shoulders base data =
      some (clean_data (scaled_values base data)) ∧
    scaled_values base data =
      (flatPoints (adjust_positions (pairUp data)
        (get_adjustment_distances ((pairUp data).take 3)))).map
        (fun v => v * (base / shoulder_dist ((pairUp data).take 3))) := by
  constructor
  · rw [normalize_eq_pts]
    simp only [normalizePts, scaled_values, normalize_scale_some base _ _ hd, Option.getD_some]
  · simp only [scaled_values, normalize_scale_some base _ _ hd, Option.getD_some]

theorem separate_xy_length (l : List ℝ) :
    (separate_xy l).length = 2 * ((l.length - 6) / 2) := by
  simp only [separate_xy, List.length_append, List.length_map, pairUp_length,
    List.length_drop]
  ring

theorem clean_data_length (d : List ℝ) :
    (clean_data d).length = (separate_xy d).length := by
  simp [clean_data]

/-- C4: a valid `KeypointSet` (group sizes 3, 21, 21 — detected or
zero-filled alike) flattens to exactly 90 scalars, and whenever the
normalizer produces an output at all, that output has exactly 84
entries. -/
theorem C4_flatten_and_output_lengths (base : ℝ) (ks : KeypointSet)
    (h3 : ks.shoulders.length = 3) (hl : ks.lhand.length = 21)
    (hr : ks.rhand.length = 21) :
    (flatten_keys ks).length = 90 ∧
      ∀ out, normalize_based_on_shoulders base (flatten_keys ks) = some out →
        out.length = 84 := by
  have hlen : (flatten_keys ks).length = 90 := by
    simp [flatten_keys, List.length_append, flatPoints_length, h3, hl, hr]
  refine ⟨hlen, ?_⟩
  intro out hout
  by_cases hd : shoulder_dist ((pairUp (flatten_keys ks)).take 3) = 0
  · exfalso
    rw [normalize_eq_pts] at hout
    simp only [normalizePts, normalize_scale, get_scale, if_pos hd] at hout
    exact Option.noConfusion hout
  · obtain ⟨hsome, hscaled⟩ := normalize_some_eq base (flatten_keys ks) hd
    rw [hout] at hsome
    obtain rfl : out = clean_data (scaled_values base (flatten_keys ks)) :=
      Option.some.inj hsome
    rw [clean_data_length, separate_xy_length, hscaled]
    simp [adjust_positions, pairUp_length, hlen, flatPoints_length]

/-- C6: for a 90-scalar input with non-degenerate reference distance the
scale factor of `Normalizer._get_scale` is `base_shoulder_scale` divided
by the Euclidean distance between shoulder points 0 and 1 only, and
`_normalize_scale` multiplies every one of the 90 translated coordinates
(shoulder coordinates included) by that same factor. -/
theorem C6_scale_factor (base : ℝ) (data : List ℝ) (hlen : data.length = 90)
    (hd : shoulder_dist ((pairUp data).take 3) ≠ 0) :
    get_scale base ((pairUp data).take 3) =
      some (base / shoulder_dist ((pairUp data).take 3)) ∧
    shoulder_dist ((pairUp data).take 3) =
      Real.sqrt (((((pairUp data).take 3).getD 1 (0, 0)).1 -
          (((pairUp data).take 3).getD 0 (0, 0)).1) ^ 2 +
        ((((pairUp data).take 3).getD 1 (0, 0)).2 -
          (((pairUp data).take 3).getD 0 (0, 0)).2) ^ 2) ∧
    scaled_values base data =
      (flatPoints (adjust_positions (pairUp data)
        (get_adjustment_distances ((pairUp data).take 3)))).map
        (fun v => v * (base / shoulder_dist ((pairUp data).take 3))) ∧
    (scaled_values base data).length = 90 := by
  obtain ⟨-, hscaled⟩ := normalize_some_eq base data hd
  refine ⟨by rw [get_scale, if_neg hd], rfl, hscaled, ?_⟩
  rw [hscaled]
  simp [adjust_positions, flatPoints_length, pairUp_length, hlen]

/-- C8: when the reference shoulder distance and the overall
pre-normalization range are both non-degenerate, the normalizer
succeeds, every output entry is a real value in `[0, 1]`, and the values
`0` and `1` are both attained exactly. -/
theorem C8_output_range (base : ℝ) (data : List ℝ) (hlen : data.length = 90)
    (hd : shoulder_dist ((pairUp data).take 3) ≠ 0)
    (hr : ptp (separate_xy (scaled_values base data)) ≠ 0) :
    ∃ out, normalize_based_on_shoulders base data = some out ∧
      (∀ x ∈ out, ∃ v : ℝ, x = some v ∧ 0 ≤ v ∧ v ≤ 1) ∧
      some (0 : ℝ) ∈ out ∧ some (1 : ℝ) ∈ out := by
  obtain ⟨hsome, -⟩ := normalize_some_eq base data hd
  exact ⟨clean_data (scaled_values base data), hsome,
    clean_data_range (scaled_values base data) hr⟩

/-! ### Element-level description of `_separate_xy` -/

theorem getD_map_fst : ∀ (L : List Point) (i : ℕ),
    (L.map Prod.fst).getD i 0 = (L.getD i (0, 0)).1
  | [], i => by simp
  | p :: rest, 0 => by simp
  | p :: rest, i + 1 => by
      simp only [List.map_cons, List.getD_cons_succ]
      exact getD_map_fst rest i

theorem getD_map_snd : ∀ (L : List Point) (i : ℕ),
    (L.map Prod.snd).getD i 0 = (L.getD i (0, 0)).2
  | [], i => by simp
  | p :: rest, 0 => by simp
  | p :: rest, i + 1 => by
      simp only [List.map_cons, List.getD_cons_succ]
      exact getD_map_snd rest i

theorem getD_drop : ∀ (l : List ℝ) (n i : ℕ),
    (l.drop n).getD i 0 = l.getD (n + i) 0
  | l, 0, i => by simp
  | [], n + 1, i => by simp
  | x :: rest, n + 1, i => by
      rw [List.drop_succ_cons, show n + 1 + i = (n + i) + 1 by omega,
        List.getD_cons_succ]
      exact getD_drop rest n i

theorem pairUp_getD : ∀ (l : List ℝ) (i : ℕ), 2 * i + 1 < l.length →
    (pairUp l).getD i (0, 0) = (l.getD (2 * i) 0, l.getD (2 * i + 1) 0)
  | [], i, h => by simp at h
  | [x], i, h => by simp at h
  | x :: y :: rest, 0, _ => by simp [pairUp]
  | x :: y :: rest, i + 1, h => by
      have hrec := pairUp_getD rest i (by simp at h; omega)
      have e1 : (x :: y :: rest).getD (2 * (i + 1)) 0 = rest.getD (2 * i) 0 := by
        rw [show 2 * (i + 1) = (2 * i) + 1 + 1 by ring, List.getD_cons_succ,
          List.getD_cons_succ]
      have e2 : (x :: y :: rest).getD (2 * (i + 1) + 1) 0 = rest.getD (2 * i + 1) 0 := by
        rw [show 2 * (i + 1) + 1 = (2 * i + 1) + 1 + 1 by ring, List.getD_cons_succ,
          List.getD_cons_succ]
      rw [e1, e2, show pairUp (x :: y :: rest) = (x, y) :: pairUp rest from rfl,
        List.getD_cons_succ, hrec]

/-- C7: on a 90-scalar input `_separate_xy` discards exactly the first 6
scalars (the 3 shoulder/head points) and emits the 42 remaining points
in coordinate-major order: entry `i` (for `i < 42`) is the x-value of
hand point `i` and entry `42 + i` is its y-value. -/
theorem C7_separate_xy (l : List ℝ) (h : l.length = 90) :
    (separate_xy l).length = 84 ∧
    (∀ i, i < 42 → (separate_xy l).getD i 0 = l.getD (6 + 2 * i) 0) ∧
    (∀ i, i < 42 → (separate_xy l).getD (42 + i) 0 = l.getD (6 + 2 * i + 1) 0) := by
  have hlen : (separate_xy l).length = 84 := by rw [separate_xy_length, h]
  have hdroplen : (l.drop 6).length = 84 := by simp [h]
  have hpulen : (pairUp (l.drop 6)).length = 42 := by rw [pairUp_length, hdroplen]
  have hxlen : ((pairUp (l.drop 6)).map Prod.fst).length = 42 := by simp [hpulen]
  refine ⟨hlen, ?_, ?_⟩
  · intro i hi
    simp only [separate_xy]
    rw [List.getD_append _ _ _ _ (by rw [hxlen]; exact hi), getD_map_fst,
      pairUp_getD _ _ (by omega)]
    rw [getD_drop]
  · intro i hi
    simp only [separate_xy]
    rw [List.getD_append_right _ _ _ _ (by rw [hxlen]; omega), hxlen,
      show 42 + i - 42 = i by omega, getD_map_snd,
      pairUp_getD _ _ (by omega)]
    show (List.drop 6 l).getD (2 * i + 1) 0 = l.getD (6 + 2 * i + 1) 0
    rw [getD_drop, show 6 + (2 * i + 1) = 6 + 2 * i + 1 by omega]

/-! ### The line-distance calculator -/

theorem getD_map_in (L : List (ℕ × ℕ)) (F : ℕ × ℕ → ℝ) (i : ℕ)
    (hi : i < L.length) :
    (L.map F).getD i 0 = F (L.getD i (0, 0)) := by
  rw [List.getD_eq_getElem _ _ (by simpa using hi), List.getD_eq_getElem _ _ hi,
    List.getElem_map]

theorem getD_replicate_pt : ∀ (n i : ℕ) (p : Point), i < n →
    (List.replicate n p).getD i (0, 0) = p
  | 0, i, p, h => absurd h (by omega)
  | n + 1, 0, p, _ => by simp [List.replicate_succ]
  | n + 1, i + 1, p, h => by
      rw [List.replicate_succ, List.getD_cons_succ]
      exact getD_replicate_pt n i p (by omega)

theorem line_pairs_bounds : ∀ q ∈ line_pairs, q.1 < 21 ∧ q.2 < 21 := by decide

/-- C9: for a 21-point hand `Calculator.calculate_hand_lines` emits
exactly 21 values, the `i`-th being the Euclidean distance between the
two points indexed by the `i`-th entry of the fixed `line_pairs` list;
a hand of 21 identical points yields 21 zero distances, and a hand with
point 0 at `(0, 0)` and point 17 at `(3, 4)` yields exactly `5` for the
pair `(17, 0)` (which sits at position 17 of the pair list). -/
theorem C9_hand_line_distances (hand : List Point) (h21 : hand.length = 21) :
    (calculate_hand_lines hand).length = 21 ∧
    (∀ i, i < 21 → (calculate_hand_lines hand).getD i 0 =
      hypot ((hand.getD (line_pairs.getD i (0, 0)).2 (0, 0)).1 -
          (hand.getD (line_pairs.getD i (0, 0)).1 (0, 0)).1)
        ((hand.getD (line_pairs.getD i (0, 0)).2 (0, 0)).2 -
          (hand.getD (line_pairs.getD i (0, 0)).1 (0, 0)).2)) ∧
    (∀ p : Point, calculate_hand_lines (List.replicate 21 p) =
      List.replicate 21 0) ∧
    ((hand.getD 0 (0, 0) = (0, 0) ∧ hand.getD 17 (0, 0) = ((3 : ℝ), (4 : ℝ))) →
      (calculate_hand_lines hand).getD 17 0 = 5) := by
  refine ⟨?_, ?_, ?_, ?_⟩
  · rw [calculate_hand_lines, List.length_map]
    rfl
  · intro i hi
    rw [calculate_hand_lines, getD_map_in _ _ _ (by simpa [line_pairs] using hi)]
  · intro p
    refine List.eq_replicate_iff.2 ⟨?_, ?_⟩
    · rw [calculate_hand_lines, List.length_map]
      rfl
    · intro b hb
      rw [calculate_hand_lines] at hb
      obtain ⟨pr, hpr, hb⟩ := List.mem_map.1 hb
      obtain ⟨h1, h2⟩ := line_pairs_bounds pr hpr
      rw [← hb, getD_replicate_pt _ _ _ h1, getD_replicate_pt _ _ _ h2,
        sub_self, sub_self, hypot_zero]
  · rintro ⟨h0, h17⟩
    rw [calculate_hand_lines, getD_map_in _ _ _ (by simp [line_pairs]),
      show line_pairs.getD 17 (0, 0) = (17, 0) from rfl]
    simp only [h0, h17]
    rw [hypot, show ((0 : ℝ), (0 : ℝ)).1 - ((3 : ℝ), (4 : ℝ)).1 = -3 from by norm_num,
      show ((0 : ℝ), (0 : ℝ)).2 - ((3 : ℝ), (4 : ℝ)).2 = -4 from by norm_num,
      show (-3 : ℝ) ^ 2 + (-4 : ℝ) ^ 2 = 5 ^ 2 by norm_num,
      Real.sqrt_sq (by norm_num : (0 : ℝ) ≤ 5)]

/-- C10: the 21 line distances depend only on coordinate differences, so
they are invariant under shifting every hand point by one constant
offset, and every emitted distance is non-negative. -/
theorem C10_calculator_shift_invariance (hand : List Point)
    (h21 : hand.length = 21) (dx dy : ℝ) :
    calculate_hand_lines (hand.map (shiftPoint dx dy)) = calculate_hand_lines hand ∧
    ∀ v ∈ calculate_hand_lines hand, 0 ≤ v := by
  constructor
  · rw [calculate_hand_lines, calculate_hand_lines]
    apply List.map_congr_left
    intro pr hpr
    obtain ⟨h1, h2⟩ := line_pairs_bounds pr hpr
    have hg1 : (hand.map (shiftPoint dx dy)).getD pr.1 (0, 0) =
        shiftPoint dx dy (hand.getD pr.1 (0, 0)) := by
      rw [List.getD_eq_getElem _ _ (by simp only [List.length_map, h21]; exact h1),
        List.getD_eq_getElem _ _ (by rw [h21]; exact h1), List.getElem_map]
    have hg2 : (hand.map (shiftPoint dx dy)).getD pr.2 (0, 0) =
        shiftPoint dx dy (hand.getD pr.2 (0, 0)) := by
      rw [List.getD_eq_getElem _ _ (by simp only [List.length_map, h21]; exact h2),
        List.getD_eq_getElem _ _ (by rw [h21]; exact h2), List.getElem_map]
    rw [hg1, hg2]
    simp only [shiftPoint]
    congr 1 <;> ring
  · intro v hv
    rw [calculate_hand_lines] at hv
    obtain ⟨pr, hpr, hb⟩ := List.mem_map.1 hv
    rw [← hb]
    exact hypot_nonneg _ _

/-! ### Concrete frames used to witness the theorems -/

/-- Witness frame: shoulders at `(0.4,0.5), (0.5,0.5), (0.6,0.5)`, first
left-hand point at `(0.3,0.5)`, every other hand point at `(0.5,0.5)`. -/
noncomputable def wKeys : KeypointSet :=
  ⟨[((0.4 : ℝ), (0.5 : ℝ)), ((0.5 : ℝ), (0.5 : ℝ)), ((0.6 : ℝ), (0.5 : ℝ))],
   ((0.3 : ℝ), (0.5 : ℝ)) :: List.replicate 20 ((0.5 : ℝ), (0.5 : ℝ)),
   List.replicate 21 ((0.5 : ℝ), (0.5 : ℝ))⟩

noncomputable def wData : List ℝ := flatten_keys wKeys

theorem wData_pairUp : pairUp wData =
    ((0.4 : ℝ), (0.5 : ℝ)) :: ((0.5 : ℝ), (0.5 : ℝ)) :: ((0.6 : ℝ), (0.5 : ℝ)) ::
      (((0.3 : ℝ), (0.5 : ℝ)) :: (List.replicate 20 ((0.5 : ℝ), (0.5 : ℝ)) ++
        List.replicate 21 ((0.5 : ℝ), (0.5 : ℝ)))) := by
  rw [show wData = flatPoints (wKeys.shoulders ++ (wKeys.lhand ++ wKeys.rhand)) from by
      simp [wData, flatten_keys, flatPoints_append],
    pairUp_flatPoints]
  simp [wKeys]

theorem wData_length : wData.length = 90 := by
  simp [wData, flatten_keys, wKeys, flatPoints_length]

theorem sDist_pos : 0 < shoulder_dist
    [((0.4 : ℝ), (0.5 : ℝ)), ((0.5 : ℝ), (0.5 : ℝ)), ((0.6 : ℝ), (0.5 : ℝ))] := by
  simp only [shoulder_dist, List.getD_cons_succ, List.getD_cons_zero]
  rw [hypot]
  apply Real.sqrt_pos.2
  norm_num

theorem wDist_ne : shoulder_dist ((pairUp wData).take 3) ≠ 0 := by
  rw [wData_pairUp]
  exact ne_of_gt sDist_pos

theorem wAdj_zero : get_adjustment_distances ((pairUp wData).take 3) = (0, 0) := by
  rw [wData_pairUp]
  show get_adjustment_distances
    [((0.4 : ℝ), (0.5 : ℝ)), ((0.5 : ℝ), (0.5 : ℝ)), ((0.6 : ℝ), (0.5 : ℝ))] = (0, 0)
  simp only [get_adjustment_distances, get_centroid, List.getD_cons_succ,
    List.getD_cons_zero]
  norm_num

theorem scaled_values_centered (base : ℝ) (data : List ℝ)
    (hd : shoulder_dist ((pairUp data).take 3) ≠ 0)
    (hadj : get_adjustment_distances ((pairUp data).take 3) = (0, 0)) :
    scaled_values base data = (flatPoints (pairUp data)).map
      (fun v => v * (base / shoulder_dist ((pairUp data).take 3))) := by
  obtain ⟨-, hs⟩ := normalize_some_eq base data hd
  rw [hs, hadj]
  congr 1
  simp [adjust_positions]

theorem separate_xy_flat (a b c : Point) (hands : List Point) :
    separate_xy (flatPoints (a :: b :: c :: hands)) =
      hands.map Prod.fst ++ hands.map Prod.snd := by
  simp only [separate_xy, flatPoints]
  rw [show List.drop 6 (a.1 :: a.2 :: b.1 :: b.2 :: c.1 :: c.2 :: flatPoints hands) =
      flatPoints hands from rfl, pairUp_flatPoints]

theorem wSep_eq : separate_xy (scaled_values 0.25 wData) =
    (((0.3 : ℝ) :: (List.replicate 20 (0.5 : ℝ) ++ List.replicate 21 (0.5 : ℝ))) ++
      ((0.5 : ℝ) :: (List.replicate 20 (0.5 : ℝ) ++ List.replicate 21 (0.5 : ℝ)))).map
      (fun v => v * (0.25 / shoulder_dist ((pairUp wData).take 3))) := by
  rw [scaled_values_centered 0.25 wData wDist_ne wAdj_zero, separate_xy_map]
  congr 1

theorem wPtp_ne : ptp (separate_xy (scaled_values 0.25 wData)) ≠ 0 := by
  have hkpos : 0 < 0.25 / shoulder_dist ((pairUp wData).take 3) := by
    apply div_pos (by norm_num)
    rw [wData_pairUp]
    exact sDist_pos
  have h1 : ((0.3 : ℝ) * (0.25 / shoulder_dist ((pairUp wData).take 3))) ∈
      separate_xy (scaled_values 0.25 wData) := by
    rw [wSep_eq]
    simp only [List.map_append, List.map_cons]
    exact List.mem_append_left _ (List.mem_cons_self _ _)
  have h2 : ((0.5 : ℝ) * (0.25 / shoulder_dist ((pairUp wData).take 3))) ∈
      separate_xy (scaled_values 0.25 wData) := by
    rw [wSep_eq]
    simp only [List.map_append, List.map_cons]
    exact List.mem_append_right _ (List.mem_cons_self _ _)
  have hmin := listMin_le_mem _ _ h1
  have hmax := mem_le_listMax _ _ h2
  have hpos : 0 < ptp (separate_xy (scaled_values 0.25 wData)) := by
    rw [ptp]
    nlinarith
  exact ne_of_gt hpos

theorem C2_scale_invariance_witness :
    normalize_based_on_shoulders 0.25
        (transformPoints (scalePoint 2 ((0 : ℝ), (0 : ℝ))) wData) =
      normalize_based_on_shoulders 0.25 wData :=
  C2_scale_invariance 0.25 2 ((0 : ℝ), (0 : ℝ)) wData wData_length (by norm_num)
    wDist_ne wPtp_ne

theorem C3_translation_invariance_witness :
    normalize_based_on_shoulders 0.25
        (transformPoints (shiftPoint 0.1 (-0.2)) wData) =
      normalize_based_on_shoulders 0.25 wData :=
  C3_translation_invariance 0.25 0.1 (-0.2) wData wData_length wDist_ne wPtp_ne

theorem C4_flatten_and_output_lengths_witness :
    (flatten_keys wKeys).length = 90 ∧
      ∀ out, normalize_based_on_shoulders 0.25 (flatten_keys wKeys) = some out →
        out.length = 84 :=
  C4_flatten_and_output_lengths 0.25 wKeys (by simp [wKeys]) (by simp [wKeys])
    (by simp [wKeys])

theorem C6_scale_factor_witness :
    get_scale 0.25 ((pairUp wData).take 3) =
      some (0.25 / shoulder_dist ((pairUp wData).take 3)) ∧
    shoulder_dist ((pairUp wData).take 3) =
      Real.sqrt (((((pairUp wData).take 3).getD 1 (0, 0)).1 -
          (((pairUp wData).take 3).getD 0 (0, 0)).1) ^ 2 +
        ((((pairUp wData).take 3).getD 1 (0, 0)).2 -
          (((pairUp wData).take 3).getD 0 (0, 0)).2) ^ 2) ∧
    scaled_values 0.25 wData =
      (flatPoints (adjust_positions (pairUp wData)
        (get_adjustment_distances ((pairUp wData).take 3)))).map
        (fun v => v * (0.25 / shoulder_dist ((pairUp wData).take 3))) ∧
    (scaled_values 0.25 wData).length = 90 :=
  C6_scale_factor 0.25 wData wData_length wDist_ne

theorem C7_separate_xy_witness :
    (separate_xy wData).length = 84 ∧
    (∀ i, i < 42 → (separate_xy wData).getD i 0 = wData.getD (6 + 2 * i) 0) ∧
    (∀ i, i < 42 → (separate_xy wData).getD (42 + i) 0 = wData.getD (6 + 2 * i + 1) 0) :=
  C7_separate_xy wData wData_length

theorem C8_output_range_witness :
    ∃ out, normalize_based_on_shoulders 0.25 wData = some out ∧
      (∀ x ∈ out, ∃ v : ℝ, x = some v ∧ 0 ≤ v ∧ v ≤ 1) ∧
      some (0 : ℝ) ∈ out ∧ some (1 : ℝ) ∈ out :=
  C8_output_range 0.25 wData wData_length wDist_ne wPtp_ne

/-! ### The end-to-end degenerate-range frame -/

theorem foldl_min_replicate_self : ∀ (m : ℕ) (c : ℝ),
    (List.replicate m c).foldl min c = c
  | 0, _ => rfl
  | m + 1, c => by
      rw [List.replicate_succ, List.foldl_cons, min_self]
      exact foldl_min_replicate_self m c

theorem foldl_max_replicate_self : ∀ (m : ℕ) (c : ℝ),
    (List.replicate m c).foldl max c = c
  | 0, _ => rfl
  | m + 1, c => by
      rw [List.replicate_succ, List.foldl_cons, max_self]
      exact foldl_max_replicate_self m c

theorem listMin_replicate (n : ℕ) (c : ℝ) (hn : n ≠ 0) :
    listMin (List.replicate n c) = c := by
  cases n with
  | zero => exact absurd rfl hn
  | succ m =>
      rw [List.replicate_succ, listMin]
      exact foldl_min_replicate_self m c

theorem listMax_replicate (n : ℕ) (c : ℝ) (hn : n ≠ 0) :
    listMax (List.replicate n c) = c := by
  cases n with
  | zero => exact absurd rfl hn
  | succ m =>
      rw [List.replicate_succ, listMax]
      exact foldl_max_replicate_self m c

theorem clean_data_const (d : List ℝ) (n : ℕ) (c : ℝ) (hn : n ≠ 0)
    (hsep : separate_xy d = List.replicate n c) :
    clean_data d = List.replicate n none := by
  have hptp : ptp (List.replicate n c) = 0 := by
    rw [ptp, listMin_replicate n c hn, listMax_replicate n c hn, sub_self]
  simp only [clean_data, hsep, hptp, fdiv, List.map_replicate, if_true]

/-- The end-to-end frame of the spec: shoulders at
`(0.4,0.5), (0.5,0.5), (0.6,0.5)` and all 42 hand points at `(0.5,0.5)`. -/
noncomputable def e2eKeys : KeypointSet :=
  ⟨[((0.4 : ℝ), (0.5 : ℝ)), ((0.5 : ℝ), (0.5 : ℝ)), ((0.6 : ℝ), (0.5 : ℝ))],
   List.replicate 21 ((0.5 : ℝ), (0.5 : ℝ)),
   List.replicate 21 ((0.5 : ℝ), (0.5 : ℝ))⟩

theorem e2e_pairUp : pairUp (flatten_keys e2eKeys) =
    ((0.4 : ℝ), (0.5 : ℝ)) :: ((0.5 : ℝ), (0.5 : ℝ)) :: ((0.6 : ℝ), (0.5 : ℝ)) ::
      List.replicate 42 ((0.5 : ℝ), (0.5 : ℝ)) := by
  rw [show flatten_keys e2eKeys =
      flatPoints (e2eKeys.shoulders ++ (e2eKeys.lhand ++ e2eKeys.rhand)) from by
        simp [flatten_keys, flatPoints_append],
    pairUp_flatPoints]
  simp [e2eKeys, ← List.replicate_add]

theorem e2eDist_ne : shoulder_dist ((pairUp (flatten_keys e2eKeys)).take 3) ≠ 0 := by
  rw [e2e_pairUp]
  exact ne_of_gt sDist_pos

theorem e2eAdj_zero :
    get_adjustment_distances ((pairUp (flatten_keys e2eKeys)).take 3) = (0, 0) := by
  rw [e2e_pairUp]
  show get_adjustment_distances
    [((0.4 : ℝ), (0.5 : ℝ)), ((0.5 : ℝ), (0.5 : ℝ)), ((0.6 : ℝ), (0.5 : ℝ))] = (0, 0)
  simp only [get_adjustment_distances, get_centroid, List.getD_cons_succ,
    List.getD_cons_zero]
  norm_num

theorem e2eSep : separate_xy (scaled_values 0.25 (flatten_keys e2eKeys)) =
    List.replicate 84
      ((0.5 : ℝ) * (0.25 / shoulder_dist ((pairUp (flatten_keys e2eKeys)).take 3))) := by
  rw [scaled_values_centered 0.25 _ e2eDist_ne e2eAdj_zero, separate_xy_map]
  rw [show separate_xy (flatPoints (pairUp (flatten_keys e2eKeys))) =
      List.replicate 84 (0.5 : ℝ) from by
        rw [e2e_pairUp, separate_xy_flat]
        simp [← List.replicate_add]]
  rw [List.map_replicate]

/-- C5: on the end-to-end frame (shoulders `(0.4,0.5),(0.5,0.5),(0.6,0.5)`,
`base_shoulder_scale = 0.25`, all 42 hand points at `(0.5,0.5)`) all 84
pre-normalization values are identical, and `Normalizer._clean_data`
performs the min-max division anyway: numpy divides the zero numerators
by the zero range and silently returns a full vector of NaN entries
(modelled as 84 `none` entries inside a successful `some` result) — no
DegenerateRange condition is detected or reported. -/
theorem C5_degenerate_range_nan :
    normalize_based_on_shoulders 0.25 (flatten_keys e2eKeys) =
      some (List.replicate 84 none) := by
  obtain ⟨hsome, -⟩ := normalize_some_eq 0.25 (flatten_keys e2eKeys) e2eDist_ne
  rw [hsome, clean_data_const _ 84 _ (by norm_num) e2eSep]

/-- Witness hand: point 17 at `(3, 4)`, every other point at `(0, 0)`. -/
noncomputable def wHand : List Point :=
  List.replicate 17 ((0 : ℝ), (0 : ℝ)) ++
    (((3 : ℝ), (4 : ℝ)) :: List.replicate 3 ((0 : ℝ), (0 : ℝ)))

theorem wHand_length : wHand.length = 21 := by
  simp [wHand]

theorem wHand_getD_0 : wHand.getD 0 (0, 0) = ((0 : ℝ), (0 : ℝ)) := by
  rw [wHand, List.getD_append _ _ _ _ (by simp)]
  exact getD_replicate_pt 17 0 _ (by omega)

theorem wHand_getD_17 : wHand.getD 17 (0, 0) = ((3 : ℝ), (4 : ℝ)) := by
  rw [wHand, List.getD_append_right _ _ _ _ (by simp)]
  simp

theorem C9_hand_line_distances_witness :
    (calculate_hand_lines wHand).length = 21 ∧
    (calculate_hand_lines wHand).getD 17 0 = 5 :=
  ⟨(C9_hand_line_distances wHand wHand_length).1,
   (C9_hand_line_distances wHand wHand_length).2.2.2 ⟨wHand_getD_0, wHand_getD_17⟩⟩

theorem C10_calculator_shift_invariance_witness :
    calculate_hand_lines ((List.replicate 21 ((1 : ℝ), (2 : ℝ))).map (shiftPoint 3 4)) =
      calculate_hand_lines (List.replicate 21 ((1 : ℝ), (2 : ℝ))) ∧
    ∀ v ∈ calculate_hand_lines (List.replicate 21 ((1 : ℝ), (2 : ℝ))), 0 ≤ v :=
  C10_calculator_shift_invariance (List.replicate 21 ((1 : ℝ), (2 : ℝ)))
    (by simp) 3 4
